import Mathlib

/-!
Verification of the peer-discovery core of a Bitcoin network crawler.

The definitions below are a shallow embedding of the Python sources
`custom_crawler/crawler.py`, `services/bitcoin_crawler.py` and
`bitcoin_peer_crawler.py`.  Bytes are modelled as `Nat` values (with a
`< 256` hypothesis where the value range matters) and byte strings as
`List Nat`.  Fallible operations return `Option`; network input is passed
explicitly as a list of already-framed messages, a read timeout or a
framing error (bad magic, oversized payload) being modelled by the end of
that list, exactly where the Python read loops `break`.
-/

set_option linter.unusedVariables false

namespace Crawler

/-- `struct.pack` little-endian: the `w`-byte little-endian encoding of `n`
(`<H`, `<I`, `<Q` for `w = 2, 4, 8`).  Python raises `struct.error` for
`n ≥ 256 ^ w`; every call site below passes an in-range value, which the
theorems carry as a hypothesis. -/
def packLE : Nat → Nat → List Nat
  | 0, _ => []
  | w + 1, n => n % 256 :: packLE w (n / 256)

/-- `struct.unpack` little-endian of a byte list. -/
def unpackLE : List Nat → Nat
  | [] => 0
  | b :: bs => b + 256 * unpackLE bs

theorem packLE_length (w n : Nat) : (packLE w n).length = w := by
  induction w generalizing n with
  | zero => rfl
  | succ k ih => simp [packLE, ih]

theorem unpackLE_packLE (w n : Nat) : unpackLE (packLE w n) = n % 256 ^ w := by
  induction w generalizing n with
  | zero => simp [packLE, unpackLE, Nat.mod_one]
  | succ k ih =>
    rw [packLE, unpackLE, ih, ← Nat.mod_mul_right_div_self]
    have hm : (256 : Nat) * 256 ^ k = 256 ^ (k + 1) := by ring
    rw [hm]
    have h1 : n % 256 ^ (k + 1) % 256 = n % 256 :=
      Nat.mod_mod_of_dvd n (dvd_pow_self 256 (Nat.succ_ne_zero k))
    rw [← h1]
    exact Nat.mod_add_div (n % 256 ^ (k + 1)) 256

/-- `encode_varint` from `custom_crawler/crawler.py` (lines 107–116). -/
def encode_varint (n : Nat) : List Nat :=
  if n < 0xfd then [n]
  else if n ≤ 0xffff then 0xfd :: packLE 2 n
  else if n ≤ 0xffffffff then 0xfe :: packLE 4 n
  else 0xff :: packLE 8 n

/-- `decode_varint` from `custom_crawler/crawler.py` (lines 119–138):
returns `(value, new_offset)`, and `(0, offset)` when the buffer is too
short for the width declared by the tag byte. -/
def decode_varint (data : List Nat) (offset : Nat) : Nat × Nat :=
  if data.length ≤ offset then (0, offset)
  else
    let first := data.getD offset 0
    if first < 0xfd then (first, offset + 1)
    else if first = 0xfd then
      if data.length < offset + 3 then (0, offset)
      else (unpackLE ((data.drop (offset + 1)).take 2), offset + 3)
    else if first = 0xfe then
      if data.length < offset + 5 then (0, offset)
      else (unpackLE ((data.drop (offset + 1)).take 4), offset + 5)
    else
      if data.length < offset + 9 then (0, offset)
      else (unpackLE ((data.drop (offset + 1)).take 8), offset + 9)

/-- `BitcoinCrawler.read_varint` from `services/bitcoin_crawler.py`
(lines 129–148): returns `(value, size)` and `(0, 0)` on truncation. -/
def read_varint (data : List Nat) (offset : Nat) : Nat × Nat :=
  if data.length ≤ offset then (0, 0)
  else
    let first := data.getD offset 0
    if first < 0xfd then (first, 1)
    else if first = 0xfd then
      if data.length < offset + 3 then (0, 0)
      else (unpackLE ((data.drop (offset + 1)).take 2), 3)
    else if first = 0xfe then
      if data.length < offset + 5 then (0, 0)
      else (unpackLE ((data.drop (offset + 1)).take 4), 5)
    else
      if data.length < offset + 9 then (0, 0)
      else (unpackLE ((data.drop (offset + 1)).take 8), 9)

/-- Total byte count (tag plus value) a varint starting with byte `tag`
declares: 1 below `0xfd`, otherwise 3, 5 or 9. -/
def varintWidth (tag : Nat) : Nat :=
  if tag < 0xfd then 1 else if tag = 0xfd then 3 else if tag = 0xfe then 5 else 9

theorem decode_varint_tag2 (n : Nat) (h : n ≤ 0xffff) :
    decode_varint (0xfd :: packLE 2 n) 0 = (n, 3) := by
  have hlen : (0xfd :: packLE 2 n).length = 3 := by simp [packLE_length]
  have htake : (packLE 2 n).take 2 = packLE 2 n :=
    List.take_of_length_le (by simp [packLE_length])
  simp only [decode_varint, hlen]
  norm_num [List.getD_cons_zero, List.drop_succ_cons, List.drop_zero, htake,
    unpackLE_packLE]
  omega

theorem decode_varint_tag4 (n : Nat) (h : n ≤ 0xffffffff) :
    decode_varint (0xfe :: packLE 4 n) 0 = (n, 5) := by
  have hlen : (0xfe :: packLE 4 n).length = 5 := by simp [packLE_length]
  have htake : (packLE 4 n).take 4 = packLE 4 n :=
    List.take_of_length_le (by simp [packLE_length])
  simp only [decode_varint, hlen]
  norm_num [List.getD_cons_zero, List.drop_succ_cons, List.drop_zero, htake,
    unpackLE_packLE]
  omega

theorem decode_varint_tag8 (n : Nat) (h : n < 2 ^ 64) :
    decode_varint (0xff :: packLE 8 n) 0 = (n, 9) := by
  have hlen : (0xff :: packLE 8 n).length = 9 := by simp [packLE_length]
  have htake : (packLE 8 n).take 8 = packLE 8 n :=
    List.take_of_length_le (by simp [packLE_length])
  simp only [decode_varint, hlen]
  norm_num [List.getD_cons_zero, List.drop_succ_cons, List.drop_zero, htake,
    unpackLE_packLE]
  omega

/-- **C2.** Varint round-trip: for `n < 2 ^ 64`, `encode_varint n` is a
single byte when `n < 0xfd` and otherwise a `0xfd`/`0xfe`/`0xff` tag
followed by the 2-, 4- resp. 8-byte little-endian value of `n`, and
`decode_varint (encode_varint n) 0` returns exactly
`(n, (encode_varint n).length)`. -/
theorem varint_round_trip (n : Nat) (h : n < 2 ^ 64) :
    decode_varint (encode_varint n) 0 = (n, (encode_varint n).length)
    ∧ (n < 0xfd → encode_varint n = [n])
    ∧ (0xfd ≤ n →
        encode_varint n =
          (if n ≤ 0xffff then 0xfd else if n ≤ 0xffffffff then 0xfe else 0xff)
            :: packLE (if n ≤ 0xffff then 2 else if n ≤ 0xffffffff then 4 else 8) n
        ∧ unpackLE (packLE (if n ≤ 0xffff then 2 else if n ≤ 0xffffffff then 4 else 8) n)
            = n) := by
  by_cases h1 : n < 0xfd
  · refine ⟨?_, fun _ => by simp [encode_varint, h1], fun hc => absurd h1 (by omega)⟩
    simp [encode_varint, decode_varint, h1]
  · by_cases h2 : n ≤ 0xffff
    · have he : encode_varint n = 0xfd :: packLE 2 n := by
        simp [encode_varint, h1, h2]
      refine ⟨?_, fun hc => absurd hc h1, fun _ => ?_⟩
      · rw [he, decode_varint_tag2 n h2]
        simp [packLE_length]
      · simp only [if_pos h2]
        exact ⟨he, by rw [unpackLE_packLE]; omega⟩
    · by_cases h3 : n ≤ 0xffffffff
      · have he : encode_varint n = 0xfe :: packLE 4 n := by
          simp [encode_varint, h1, h2, h3]
        refine ⟨?_, fun hc => absurd hc h1, fun _ => ?_⟩
        · rw [he, decode_varint_tag4 n h3]
          simp [packLE_length]
        · simp only [if_neg h2, if_pos h3]
          exact ⟨he, by rw [unpackLE_packLE]; omega⟩
      · have he : encode_varint n = 0xff :: packLE 8 n := by
          simp [encode_varint, h1, h2, h3]
        refine ⟨?_, fun hc => absurd hc h1, fun _ => ?_⟩
        · rw [he, decode_varint_tag8 n h]
          simp [packLE_length]
        · simp only [if_neg h2, if_neg h3]
          refine ⟨he, by rw [unpackLE_packLE]; omega⟩

/-- Witness for `varint_round_trip` at `n = 0x10000`. -/
theorem varint_round_trip_witness :
    decode_varint (encode_varint 0x10000) 0 = (0x10000, (encode_varint 0x10000).length) := by
  exact (varint_round_trip 0x10000 (by norm_num)).1

/-- **C8 counterexample.** On a truncated varint (`0xfe` tag declaring a
4-byte value, with only 2 value bytes present) `decode_varint` does not
fail with a `TruncatedInput` error: it returns the ordinary value
`(0, offset)`.  No error channel exists anywhere in the function. -/
theorem varint_truncation_counterexample :
    decode_varint [0xfe, 1, 2] 0 = (0, 0) := by decide

/-- **C8 (amended).** On every buffer and offset whose remaining bytes are
fewer than the width the tag byte declares (3/5/9 total bytes for tags
`0xfd`/`0xfe`/`0xff`), `decode_varint` returns the sentinel `(0, offset)`
— the offset does not advance — and `read_varint` returns `(0, 0)`;
neither raises an error. -/
theorem varint_truncation (data : List Nat) (offset : Nat)
    (h1 : offset < data.length)
    (htag : 0xfd ≤ data.getD offset 0)
    (h2 : data.length < offset + varintWidth (data.getD offset 0)) :
    decode_varint data offset = (0, offset) ∧ read_varint data offset = (0, 0) := by
  have hnl : ¬ data.length ≤ offset := by omega
  have hnf : ¬ data.getD offset 0 < 0xfd := by omega
  rw [List.getD_eq_getElem?_getD] at hnf htag h2
  by_cases hfd : data[offset]?.getD 0 = 0xfd
  · have hw : varintWidth (data[offset]?.getD 0) = 3 := by
      simp [varintWidth, hnf, hfd]
    rw [hw] at h2
    constructor
    · simp [decode_varint, hnl, hnf, hfd, h2]
    · simp [read_varint, hnl, hnf, hfd, h2]
  · by_cases hfe : data[offset]?.getD 0 = 0xfe
    · have hw : varintWidth (data[offset]?.getD 0) = 5 := by
        simp [varintWidth, hnf, hfd, hfe]
      rw [hw] at h2
      constructor
      · simp [decode_varint, hnl, hnf, hfd, hfe, h2]
      · simp [read_varint, hnl, hnf, hfd, hfe, h2]
    · have hw : varintWidth (data[offset]?.getD 0) = 9 := by
        simp [varintWidth, hnf, hfd, hfe]
      rw [hw] at h2
      constructor
      · simp [decode_varint, hnl, hnf, hfd, hfe, h2]
      · simp [read_varint, hnl, hnf, hfd, hfe, h2]

/-- Witness for `varint_truncation`: a `0xfd` tag declaring a 2-byte value
with only one value byte present. -/
theorem varint_truncation_witness :
    decode_varint [0xfd, 7] 0 = (0, 0) ∧ read_varint [0xfd, 7] 0 = (0, 0) := by
  exact varint_truncation [0xfd, 7] 0 (by decide) (by decide) (by decide)

/-- Network magic of `services/bitcoin_crawler.py` (mainnet). -/
def MAGIC_BYTES : List Nat := [0xf9, 0xbe, 0xb4, 0xd9]

/-- `bytes.rstrip` of the zero byte: drop trailing zero bytes. -/
def rstripZero (l : List Nat) : List Nat := (l.reverse.dropWhile (· == 0)).reverse

/-- `BitcoinCrawler.create_message` (`services/bitcoin_crawler.py` lines
60–67): `magic(4) | command zero-padded to 12 | payload length (4, LE) |
first 4 bytes of double-SHA256 of the payload | payload`.  The SHA-256
digest function (`hashlib.sha256(.).digest()`, always 32 bytes) is passed
as the parameter `sha`; the envelope layout and its round-trip do not
depend on the digest internals.  `ljust(12)` pads only commands shorter
than 12 bytes, exactly as `12 - command.length` truncates at zero. -/
def create_message (sha : List Nat → List Nat) (command payload : List Nat) : List Nat :=
  MAGIC_BYTES ++ ((command ++ List.replicate (12 - command.length) 0)
    ++ (packLE 4 payload.length ++ ((sha (sha payload)).take 4 ++ payload)))

/-- `BitcoinCrawler.parse_message` (`services/bitcoin_crawler.py` lines
105–127): checks the minimum length, the magic, the payload length and
the checksum, strips the zero padding from the command (the ascii decode
of sub-128 bytes is the identity), and returns command and payload. -/
def parse_message (sha : List Nat → List Nat) (data : List Nat) : Option (List Nat × List Nat) :=
  if data.length < 24 then none
  else if data.take 4 ≠ MAGIC_BYTES then none
  else if data.length < 24 + unpackLE ((data.drop 16).take 4) then none
  else if (sha (sha ((data.drop 24).take (unpackLE ((data.drop 16).take 4))))).take 4
      ≠ (data.drop 20).take 4 then none
  else some (rstripZero ((data.drop 4).take 12),
    (data.drop 24).take (unpackLE ((data.drop 16).take 4)))

theorem dropWhile_zero_replicate_append (k : Nat) (l : List Nat) :
    List.dropWhile (· == 0) (List.replicate k 0 ++ l) = List.dropWhile (· == 0) l := by
  induction k with
  | zero => simp
  | succ m ih => simp [List.replicate_succ, ih]

theorem rstripZero_pad (c : List Nat) (k : Nat) (h : c.getLast? ≠ some 0) :
    rstripZero (c ++ List.replicate k 0) = c := by
  unfold rstripZero
  rw [List.reverse_append, List.reverse_replicate, dropWhile_zero_replicate_append]
  rcases hrc : c.reverse with _ | ⟨b, bs⟩
  · simp [List.reverse_eq_nil_iff.mp hrc]
  · have hb : b ≠ 0 := by
      intro hb0
      apply h
      rw [List.getLast?_eq_head?_reverse, hrc, hb0]
      rfl
    rw [List.dropWhile_cons_of_neg (by simpa using hb), ← hrc, List.reverse_reverse]

/-- Constant 32-byte digest standing in for SHA-256 when the envelope
theorems are instantiated on concrete inputs; the round-trip holds for
every 32-byte digest function and never inspects the digest value. -/
def shaStub (_ : List Nat) : List Nat := List.replicate 32 0

/-- **C3 counterexample.** The 1-byte ascii command `"\x00"` (byte `0`)
with the empty payload: `parse_message` strips all trailing zero bytes,
so it returns the empty command, not the original one — the round-trip
fails for commands whose last byte is the zero byte. -/
theorem message_round_trip_counterexample :
    parse_message shaStub (create_message shaStub [0] []) = some ([], [])
    ∧ ([0] : List Nat) ≠ [] := by decide

/-- **C3 (amended).** For every 32-byte digest function, every command of
at most 12 bytes whose last byte is not the zero byte (the zero padding
is stripped on parse, so a trailing zero byte of the command itself
cannot be recovered), and every payload shorter than `2 ^ 32` bytes
(`struct.pack` would raise beyond that), the message built by
`create_message` has the layout `magic(4) | command zero-padded to 12 |
length(4, LE) | checksum = first 4 bytes of the double digest | payload`
— in particular its length is `24 + payload.length` — and
`parse_message` on that exact byte string recovers the same command and
payload, the checksum verifying. -/
theorem message_round_trip (sha : List Nat → List Nat) (command payload : List Nat)
    (hsha : ∀ x, (sha x).length = 32)
    (hcmd : command.length ≤ 12)
    (hlast : command.getLast? ≠ some 0)
    (hplen : payload.length < 2 ^ 32) :
    parse_message sha (create_message sha command payload) = some (command, payload)
    ∧ (create_message sha command payload).length = 24 + payload.length := by
  have hcmdbLen : (command ++ List.replicate (12 - command.length) 0).length = 12 := by
    simp only [List.length_append, List.length_replicate]
    omega
  have hchkLen : ((sha (sha payload)).take 4).length = 4 := by
    simp [List.length_take, hsha]
  have hm : create_message sha command payload
      = MAGIC_BYTES ++ ((command ++ List.replicate (12 - command.length) 0)
        ++ (packLE 4 payload.length ++ ((sha (sha payload)).take 4 ++ payload))) := rfl
  have hLen : (create_message sha command payload).length = 24 + payload.length := by
    rw [hm]
    simp only [List.length_append, hcmdbLen, packLE_length, hchkLen]
    norm_num [MAGIC_BYTES]
    omega
  have t4 : (create_message sha command payload).take 4 = MAGIC_BYTES := by
    rw [hm]; exact List.take_left' (by norm_num [MAGIC_BYTES])
  have d4 : (create_message sha command payload).drop 4
      = (command ++ List.replicate (12 - command.length) 0)
        ++ (packLE 4 payload.length ++ ((sha (sha payload)).take 4 ++ payload)) := by
    rw [hm]; exact List.drop_left' (by norm_num [MAGIC_BYTES])
  have d4t : ((create_message sha command payload).drop 4).take 12
      = command ++ List.replicate (12 - command.length) 0 := by
    rw [d4]; exact List.take_left' hcmdbLen
  have d16 : (create_message sha command payload).drop 16
      = packLE 4 payload.length ++ ((sha (sha payload)).take 4 ++ payload) := by
    rw [hm, ← List.append_assoc]
    exact List.drop_left' (by simp [List.length_append, MAGIC_BYTES]; omega)
  have d16t : ((create_message sha command payload).drop 16).take 4
      = packLE 4 payload.length := by
    rw [d16]; exact List.take_left' (packLE_length 4 _)
  have d20 : (create_message sha command payload).drop 20
      = (sha (sha payload)).take 4 ++ payload := by
    rw [hm, ← List.append_assoc, ← List.append_assoc]
    exact List.drop_left'
      (by simp [List.length_append, packLE_length, MAGIC_BYTES]; omega)
  have d20t : ((create_message sha command payload).drop 20).take 4
      = (sha (sha payload)).take 4 := by
    rw [d20]; exact List.take_left' hchkLen
  have d24 : (create_message sha command payload).drop 24 = payload := by
    rw [hm, ← List.append_assoc, ← List.append_assoc, ← List.append_assoc]
    exact List.drop_left'
      (by simp [List.length_append, packLE_length, hchkLen, MAGIC_BYTES]; omega)
  have hpl : unpackLE (((create_message sha command payload).drop 16).take 4)
      = payload.length := by
    rw [d16t, unpackLE_packLE]
    have : (256 : Nat) ^ 4 = 2 ^ 32 := by norm_num
    rw [this]
    omega
  refine ⟨?_, hLen⟩
  unfold parse_message
  rw [if_neg (by rw [hLen]; omega)]
  rw [if_neg (by rw [t4]; simp)]
  rw [hpl, if_neg (by rw [hLen]; omega)]
  rw [d24, List.take_length, if_neg (by rw [d20t]; simp)]
  rw [d4t, rstripZero_pad command _ hlast]

/-- Witness for `message_round_trip` with the 3-byte command
`[118, 101, 114]` and payload `[7, 8]`. -/
theorem message_round_trip_witness :
    parse_message shaStub (create_message shaStub [118, 101, 114] [7, 8])
      = some ([118, 101, 114], [7, 8]) :=
  (message_round_trip shaStub [118, 101, 114] [7, 8] (fun _ => rfl)
    (by decide) (by decide) (by norm_num)).1

/-- `is_public_ipv4` from `custom_crawler/crawler.py` (lines 146–173), on
the four dotted-quad components.  The string-level guards of the source
(`':' in ip`, `len(parts) != 4`, `int` parsing) always pass for the
strings produced by `socket.inet_ntoa`, which is how every caller modelled
here obtains `ip`, so the function is stated on the numeric components
directly, in the source's test order. -/
def is_public_ipv4 (a b c d : Nat) : Bool :=
  if a = 10 then false
  else if a = 172 ∧ 16 ≤ b ∧ b ≤ 31 then false
  else if a = 192 ∧ b = 168 then false
  else if a = 127 then false
  else if a = 0 then false
  else if 224 ≤ a then false
  else true

/-- An IPv4 endpoint, the only address form the crawler keeps. -/
structure Address where
  ipA : Nat
  ipB : Nat
  ipC : Nat
  ipD : Nat
  port : Nat
  deriving DecidableEq, Repr

/-- The per-record body of `parse_addr_payload` (`custom_crawler/crawler.py`
lines 234–254) — the spec's `decodeAddressRecord` — on one 30-byte record
`timestamp(4) | services(8) | ip(16) | port(2, BE)`: the record yields an
`Address` iff the 16-byte ip field starts with ten zero bytes and two
`0xff` bytes (IPv4-mapped IPv6) and the embedded IPv4 passes
`is_public_ipv4`.  `socket.inet_ntoa` followed by the dotted-quad split
inside `is_public_ipv4` is the identity on the four bytes. -/
def decodeAddressRecord (record : List Nat) : Option Address :=
  if ((record.drop 12).take 16).take 12 = List.replicate 10 0 ++ [0xff, 0xff] then
    if is_public_ipv4 (record.getD 24 0) (record.getD 25 0)
        (record.getD 26 0) (record.getD 27 0) then
      some ⟨record.getD 24 0, record.getD 25 0, record.getD 26 0, record.getD 27 0,
        256 * record.getD 28 0 + record.getD 29 0⟩
    else none
  else none

/-- The record loop of `parse_addr_payload`: at most `fuel` records, each
30 bytes from `offset`; stops when fewer than 30 bytes remain (the second
bounds check of the source, `offset + 2 > len` after advancing 28, is
implied by the first and therefore never fires). -/
def parseAddrLoop (payload : List Nat) : Nat → Nat → List Address
  | 0, _ => []
  | k + 1, offset =>
    if payload.length < offset + 30 then []
    else
      let rest := parseAddrLoop payload k (offset + 30)
      if ((payload.drop (offset + 12)).take 16).take 12
          = List.replicate 10 0 ++ [0xff, 0xff] then
        if is_public_ipv4 (payload.getD (offset + 24) 0) (payload.getD (offset + 25) 0)
            (payload.getD (offset + 26) 0) (payload.getD (offset + 27) 0) then
          ⟨payload.getD (offset + 24) 0, payload.getD (offset + 25) 0,
            payload.getD (offset + 26) 0, payload.getD (offset + 27) 0,
            256 * payload.getD (offset + 28) 0 + payload.getD (offset + 29) 0⟩ :: rest
        else rest
      else rest

/-- `parse_addr_payload` (`custom_crawler/crawler.py` lines 227–258): a
leading varint count clamped to 1000, then that many 30-byte records.  No
operation inside can raise on the modelled data, so the enclosing
`try/except` that returns `[]` is unreachable. -/
def parse_addr_payload (payload : List Nat) : List Address :=
  let cv := decode_varint payload 0
  parseAddrLoop payload (min cv.1 1000) cv.2

/-- A 30-byte address record carrying the IPv4-mapped address
`10.0.0.5:8333` (timestamp and services zero). -/
def recPrivate : List Nat :=
  List.replicate 12 0 ++ (List.replicate 10 0 ++ [0xff, 0xff]) ++ [10, 0, 0, 5] ++ [0x20, 0x8d]

/-- A 30-byte address record carrying the IPv4-mapped address
`203.0.113.5:8333` (timestamp and services zero). -/
def recPublic : List Nat :=
  List.replicate 12 0 ++ (List.replicate 10 0 ++ [0xff, 0xff]) ++ [203, 0, 113, 5] ++ [0x20, 0x8d]

/-- **C4.** Address record filtering: a 30-byte record is converted into
an `Address` iff its 16-byte ip field carries the IPv4-mapped-IPv6 marker
(10 zero bytes then `0xff 0xff`) and the embedded IPv4 passes the
explicit range exclusions of `is_public_ipv4` (`10/8`, `172.16/12`,
`192.168/16`, `127/8`, `0/8`, `224.0.0.0/4` and above); in particular a
record for `10.0.0.5:8333` yields no `Address` while one for
`203.0.113.5:8333` yields `Address 203 0 113 5 8333`, both as a single
record and through `parse_addr_payload` with a count-1 varint. -/
theorem addr_record_filtering (r : List Nat) (hr : r.length = 30) :
    ((decodeAddressRecord r).isSome ↔
      ((r.drop 12).take 12 = List.replicate 10 0 ++ [0xff, 0xff]
        ∧ is_public_ipv4 (r.getD 24 0) (r.getD 25 0) (r.getD 26 0) (r.getD 27 0) = true))
    ∧ decodeAddressRecord recPrivate = none
    ∧ decodeAddressRecord recPublic = some ⟨203, 0, 113, 5, 8333⟩
    ∧ parse_addr_payload (1 :: recPrivate) = []
    ∧ parse_addr_payload (1 :: recPublic) = [⟨203, 0, 113, 5, 8333⟩] := by
  refine ⟨?_, by decide, by decide, by decide, by decide⟩
  have ht : ((r.drop 12).take 16).take 12 = (r.drop 12).take 12 := by
    rw [List.take_take]
    norm_num
  rw [decodeAddressRecord, ht]
  by_cases hp : (r.drop 12).take 12 = List.replicate 10 0 ++ [0xff, 0xff]
  · rw [if_pos hp]
    by_cases hq : is_public_ipv4 (r.getD 24 0) (r.getD 25 0) (r.getD 26 0) (r.getD 27 0) = true
    · rw [if_pos hq]
      exact ⟨fun _ => ⟨hp, hq⟩, fun _ => rfl⟩
    · rw [if_neg hq]
      constructor
      · intro hcon
        exact absurd hcon (by simp)
      · intro hcon
        exact absurd hcon.2 hq
  · rw [if_neg hp]
    constructor
    · intro hcon
      exact absurd hcon (by simp)
    · intro hcon
      exact absurd hcon.1 hp

/-- Witness for `addr_record_filtering` at the concrete public record. -/
theorem addr_record_filtering_witness :
    (decodeAddressRecord recPublic).isSome ↔
      ((recPublic.drop 12).take 12 = List.replicate 10 0 ++ [0xff, 0xff]
        ∧ is_public_ipv4 (recPublic.getD 24 0) (recPublic.getD 25 0)
            (recPublic.getD 26 0) (recPublic.getD 27 0) = true) :=
  (addr_record_filtering recPublic (by decide)).1

/-- The version/verack wait loop of `handshake_and_get_peers`
(`custom_crawler/crawler.py` lines 421–465): up to `fuel` (10) framed
messages; each `version` and each `verack` message sets its flag
independently of arrival order, and the loop stops once both flags hold.
A read timeout, a bad-magic or oversized header, or any other read error
ends the loop, which the model renders as the end of the message list. -/
def handshakeLoop : List String → Nat → Bool → Bool → Bool × Bool
  | _, 0, v, a => (v, a)
  | [], _ + 1, v, a => (v, a)
  | cmd :: rest, k + 1, v, a =>
    let v2 := if cmd = "version" then true else v
    let a2 := if cmd = "verack" then true else a
    if v2 && a2 then (v2, a2) else handshakeLoop rest k v2 a2

/-- A `handshake_and_get_peers` session is ready exactly when both flags
hold after the 10-message loop (lines 426 and 467). -/
def handshakeReady (msgs : List String) : Bool :=
  (handshakeLoop msgs 10 false false).1 && (handshakeLoop msgs 10 false false).2

theorem handshakeLoop_eq (msgs : List String) (k : Nat) (v a : Bool) :
    handshakeLoop msgs k v a
      = (v || decide ("version" ∈ msgs.take k), a || decide ("verack" ∈ msgs.take k)) := by
  induction msgs generalizing k v a with
  | nil => cases k <;> simp [handshakeLoop]
  | cons cmd rest ih =>
    cases k with
    | zero => simp [handshakeLoop]
    | succ m =>
      rw [handshakeLoop]
      have hgen : ∀ s : String, ¬ cmd = s → ¬ s = cmd := fun s hs h => hs h.symm
      by_cases hcv : cmd = "version"
      · have hca : ¬ cmd = "verack" := by rw [hcv]; decide
        by_cases ha : a = true
        · simp [hcv, hca, hgen _ hca, ha, List.take_succ_cons]
        · have ha0 : a = false := by revert ha; cases a <;> simp
          simp [hcv, hca, hgen _ hca, ha0, List.take_succ_cons, ih]
      · by_cases hca : cmd = "verack"
        · by_cases hv : v = true
          · simp [hcv, hgen _ hcv, hca, hv, List.take_succ_cons]
          · have hv0 : v = false := by revert hv; cases v <;> simp
            simp [hcv, hgen _ hcv, hca, hv0, List.take_succ_cons, ih]
        · by_cases hv : v = true
          · by_cases ha : a = true
            · simp [hcv, hgen _ hcv, hca, hgen _ hca, hv, ha, List.take_succ_cons]
            · have ha0 : a = false := by revert ha; cases a <;> simp
              simp [hcv, hgen _ hcv, hca, hgen _ hca, hv, ha0, List.take_succ_cons, ih]
          · have hv0 : v = false := by revert hv; cases v <;> simp
            simp [hcv, hgen _ hcv, hca, hgen _ hca, hv0, List.take_succ_cons, ih]

/-- The message loop of `BitcoinCrawler.connect_and_crawl`
(`services/bitcoin_crawler.py` lines 202–251) over the sequence of parsed
commands, with state `(version_received, verack_received, addr_received)`:
a `version` sets its flag (and answers with a verack); a `verack` is
accepted only when a `version` has already been received (and triggers
the getaddr request); an `addr` sets `addr_received` and leaves the loop.
The time-bounded outer `while` and every abnormal read path end the
list. -/
def connectLoop : List String → Bool → Bool → Bool → Bool × Bool × Bool
  | [], v, a, r => (v, a, r)
  | cmd :: rest, v, a, r =>
    if cmd = "version" then connectLoop rest true a r
    else if cmd = "verack" then
      if !a && v then connectLoop rest v true r else connectLoop rest v a r
    else if cmd = "addr" then
      if !r then (v, a, true) else connectLoop rest v a r
    else connectLoop rest v a r

/-- `verack_received` after `connect_and_crawl`'s loop: the handshake has
completed and getaddr was sent. -/
def connectHandshakeReady (msgs : List String) : Bool :=
  (connectLoop msgs false false false).2.1

/-- The `success` field `connect_and_crawl` returns: `addr_received`. -/
def connectSuccess (msgs : List String) : Bool :=
  (connectLoop msgs false false false).2.2

theorem connectLoop_verack_stays (msgs : List String) (v r : Bool) :
    (connectLoop msgs v true r).2.1 = true := by
  induction msgs generalizing v r with
  | nil => rfl
  | cons cmd rest ih =>
    rw [connectLoop]
    by_cases hcv : cmd = "version"
    · simp only [if_pos hcv]; exact ih true r
    · rw [if_neg hcv]
      by_cases hca : cmd = "verack"
      · simp only [if_pos hca, Bool.not_true, Bool.false_and, if_neg (by decide : ¬ (false : Bool) = true)]
        exact ih v r
      · rw [if_neg hca]
        by_cases hcr : cmd = "addr"
        · rw [if_pos hcr]
          cases r with
          | false => rfl
          | true => exact ih v true
        · rw [if_neg hcr]; exact ih v r

theorem connectLoop_verack_needs_version (msgs : List String) (v r : Bool)
    (h : (connectLoop msgs v false r).2.1 = true) :
    ∃ j, msgs.getD j "" = "verack"
      ∧ (v = true ∨ ∃ i, i < j ∧ msgs.getD i "" = "version") := by
  induction msgs generalizing v r with
  | nil => exact absurd h (by simp [connectLoop])
  | cons cmd rest ih =>
    rw [connectLoop] at h
    by_cases hcv : cmd = "version"
    · rw [if_pos hcv] at h
      obtain ⟨j, hj, hd⟩ := ih true r h
      exact ⟨j + 1, by simpa using hj, Or.inr ⟨0, by omega, by simpa using hcv⟩⟩
    · rw [if_neg hcv] at h
      by_cases hca : cmd = "verack"
      · rw [if_pos hca] at h
        cases hv : v with
        | true =>
          exact ⟨0, by simpa using hca, Or.inl rfl⟩
        | false =>
          rw [hv] at h
          simp only [Bool.not_false, Bool.and_false, Bool.true_and,
            if_neg (by decide : ¬ (false : Bool) = true)] at h
          obtain ⟨j, hj, hd⟩ := ih false r h
          refine ⟨j + 1, by simpa using hj, ?_⟩
          rcases hd with hd | ⟨i, hi, hiv⟩
          · exact absurd hd (by decide)
          · exact Or.inr ⟨i + 1, by omega, by simpa using hiv⟩
      · rw [if_neg hca] at h
        by_cases hcr : cmd = "addr"
        · rw [if_pos hcr] at h
          cases r with
          | false => exact absurd h (by simp)
          | true =>
            rw [if_neg (by decide)] at h
            obtain ⟨j, hj, hd⟩ := ih v true h
            refine ⟨j + 1, by simpa using hj, ?_⟩
            rcases hd with hd | ⟨i, hi, hiv⟩
            · exact Or.inl hd
            · exact Or.inr ⟨i + 1, by omega, by simpa using hiv⟩
        · rw [if_neg hcr] at h
          obtain ⟨j, hj, hd⟩ := ih v r h
          refine ⟨j + 1, by simpa using hj, ?_⟩
          rcases hd with hd | ⟨i, hi, hiv⟩
          · exact Or.inl hd
          · exact Or.inr ⟨i + 1, by omega, by simpa using hiv⟩

/-- **C5 counterexample.** In `connect_and_crawl`, the message sequence
`verack` then `version` — both messages received, within the budget, in
the legal-per-the-claim reversed order — does not complete the
handshake: the verack is dropped because no version had been received
yet, so the state machine does not accept the two independently. -/
theorem handshake_order_counterexample :
    connectHandshakeReady ["verack", "version"] = false
    ∧ "version" ∈ ["verack", "version"] ∧ "verack" ∈ ["verack", "version"] := by
  decide

/-- **C5 (amended).** In `handshake_and_get_peers` the session is ready
iff both a version and a verack arrive among the first 10 messages, in
either order.  In `connect_and_crawl`, however, a verack is accepted only
after a version has been received: whenever its loop ends with the
handshake complete, some received version strictly precedes a received
verack (and version-then-verack does complete it). -/
theorem handshake_order (msgs msgs2 : List String) :
    (handshakeReady msgs = true ↔
      "version" ∈ msgs.take 10 ∧ "verack" ∈ msgs.take 10)
    ∧ (connectHandshakeReady msgs2 = true →
        ∃ i j, i < j ∧ msgs2.getD i "" = "version" ∧ msgs2.getD j "" = "verack")
    ∧ connectHandshakeReady ["version", "verack"] = true := by
  refine ⟨?_, ?_, by decide⟩
  · rw [handshakeReady, handshakeLoop_eq]
    simp
  · intro h
    obtain ⟨j, hj, hd⟩ := connectLoop_verack_needs_version msgs2 false false h
    rcases hd with hd | ⟨i, hi, hiv⟩
    · exact absurd hd (by decide)
    · exact ⟨i, j, hi, hiv, hj⟩

/-- Witness for `handshake_order`: the reversed order is ready in
`handshake_and_get_peers`, and in `connect_and_crawl` the completed run
`version, verack` exhibits a version at an index before a verack. -/
theorem handshake_order_witness :
    (handshakeReady ["verack", "version"] = true ↔
      "version" ∈ (["verack", "version"] : List String).take 10
        ∧ "verack" ∈ (["verack", "version"] : List String).take 10)
    ∧ (∃ i j, i < j ∧ (["version", "verack"] : List String).getD i "" = "version"
        ∧ (["version", "verack"] : List String).getD j "" = "verack")
    ∧ connectHandshakeReady ["version", "verack"] = true := by
  have h := handshake_order ["verack", "version"] ["version", "verack"]
  exact ⟨h.1, h.2.1 (by decide), h.2.2⟩

/-- Result of one `handshake_and_get_peers` attempt
(`custom_crawler/crawler.py` lines 390–397), without the version
metadata. -/
structure ConnectionResult where
  success : Bool
  peers : List Address
  error : Option String
  deriving DecidableEq, Repr

/-- The ADDR wait loop of `handshake_and_get_peers`
(`custom_crawler/crawler.py` lines 477–508): up to `fuel` (5) framed
messages; a message with a non-empty payload whose command is `addr`
contributes its parsed peers, and the loop stops once a non-empty batch
arrived.  An oversized payload declaration stops the loop; timeouts and
read errors end the message list. -/
def addrLoop : List (String × List Nat) → Nat → List Address → List Address
  | _, 0, acc => acc
  | [], _ + 1, acc => acc
  | (cmd, payload) :: rest, k + 1, acc =>
    if 5000000 < payload.length then acc
    else if 0 < payload.length then
      if cmd = "addr" then
        if parse_addr_payload payload ≠ [] then acc ++ parse_addr_payload payload
        else addrLoop rest k (acc ++ parse_addr_payload payload)
      else addrLoop rest k acc
    else addrLoop rest k acc

/-- `handshake_and_get_peers` (`custom_crawler/crawler.py` lines 399–520)
after a successful TCP connect, as a function of the handshake-phase and
addr-phase message streams: an incomplete handshake yields `success =
false` with the `"Handshake incomplete"` error and no getaddr request; a
ready session always yields `success = true` with whatever the 5-message
addr loop collected. -/
def handshake_and_get_peers (hs : List String) (aMsgs : List (String × List Nat)) :
    ConnectionResult :=
  if handshakeReady hs then ⟨true, addrLoop aMsgs 5 [], none⟩
  else ⟨false, [], some "Handshake incomplete"⟩

theorem addrLoop_no_addr (msgs : List (String × List Nat)) (k : Nat) (acc : List Address)
    (h : ∀ m ∈ msgs.take k, m.1 ≠ "addr") : addrLoop msgs k acc = acc := by
  induction msgs generalizing k acc with
  | nil => cases k <;> rfl
  | cons m rest ih =>
    cases k with
    | zero => rfl
    | succ j =>
      obtain ⟨cmd, payload⟩ := m
      have hm : cmd ≠ "addr" := by
        have := h (cmd, payload) (by simp [List.take_succ_cons])
        simpa using this
      have hrest : ∀ x ∈ rest.take j, x.1 ≠ "addr" := fun x hx =>
        h x (by simp [List.take_succ_cons]; exact Or.inr hx)
      rw [addrLoop]
      by_cases hbig : 5000000 < payload.length
      · rw [if_pos hbig]
      · rw [if_neg hbig]
        by_cases hpos : 0 < payload.length
        · rw [if_pos hpos, if_neg hm]
          exact ih j acc hrest
        · rw [if_neg hpos]
          exact ih j acc hrest

/-- **C6 counterexample.** In `connect_and_crawl` the claim fails: after
a fully completed handshake (`version` then `verack`) with no addr reply
within the budget, the returned `success` flag is `false` — the same
value as for a failed handshake (empty stream), so the silent peer is
*not* reported as a successful outcome distinct from handshake
failure. -/
theorem addr_exchange_counterexample :
    connectHandshakeReady ["version", "verack"] = true
    ∧ connectSuccess ["version", "verack"] = false
    ∧ connectSuccess [] = false := by decide

/-- **C6 (amended).** In `handshake_and_get_peers`, a ready session whose
addr-phase stream contains no `addr` command within the 5-message budget
returns `success = true` with an empty peer list and no error — distinct
from handshake failure, which returns `success = false` with the
`"Handshake incomplete"` error.  In `connect_and_crawl`, by contrast,
`success` is `addr_received`, so a ready session with no addr reply is
reported exactly like a failure. -/
theorem addr_exchange_empty (hs hs2 : List String) (aMsgs : List (String × List Nat))
    (hready : handshakeReady hs = true)
    (hnoaddr : ∀ m ∈ aMsgs.take 5, m.1 ≠ "addr")
    (hfail : handshakeReady hs2 = false) :
    handshake_and_get_peers hs aMsgs = ⟨true, [], none⟩
    ∧ handshake_and_get_peers hs2 aMsgs = ⟨false, [], some "Handshake incomplete"⟩
    ∧ connectSuccess ["version", "verack"] = false := by
  refine ⟨?_, ?_, by decide⟩
  · rw [handshake_and_get_peers, if_pos hready, addrLoop_no_addr aMsgs 5 [] hnoaddr]
  · rw [handshake_and_get_peers, if_neg (by rw [hfail]; decide)]

/-- Witness for `addr_exchange_empty`: a ready handshake, an addr phase
answered only by two `ping`-style messages, and a failed handshake. -/
theorem addr_exchange_empty_witness :
    handshake_and_get_peers ["version", "verack"] [("ping", [1]), ("inv", [2, 3])]
      = ⟨true, [], none⟩
    ∧ handshake_and_get_peers ["version"] [("ping", [1]), ("inv", [2, 3])]
      = ⟨false, [], some "Handshake incomplete"⟩ := by
  have h := addr_exchange_empty ["version", "verack"] ["version"]
    [("ping", [1]), ("inv", [2, 3])] (by decide) (by decide) (by decide)
  exact ⟨h.1, h.2.1⟩

/-- The per-iteration dispatch of `BitcoinTestnetCrawler.crawl`
(`custom_crawler/crawler.py` lines 608–614): walk the queue in order; an
ip not yet in `visited` is added to `visited` *before* its worker task is
created and is dispatched; an ip already visited is skipped.  Returns the
updated visited set and the dispatched batch (the source keys `visited`
by ip only, so the model does too). -/
def dispatchBatch (visited : List String) :
    List (String × Nat) → List String × List (String × Nat)
  | [] => (visited, [])
  | (ip, port) :: rest =>
    if ip ∈ visited then dispatchBatch visited rest
    else
      let r := dispatchBatch (ip :: visited) rest
      (r.1, (ip, port) :: r.2)

/-- The dispatch sequence of a whole run of `BitcoinTestnetCrawler.crawl`:
one `dispatchBatch` per iteration, over the per-iteration queues the
database returns (`get_uncontacted_peers`); `self.visited` persists
across iterations. -/
def crawlDispatches (visited : List String) :
    List (List (String × Nat)) → List (List (String × Nat))
  | [] => []
  | q :: qs =>
    let r := dispatchBatch visited q
    r.2 :: crawlDispatches r.1 qs

theorem dispatchBatch_mem_visited (q : List (String × Nat)) (visited : List String)
    (ip : String) (h : ip ∈ visited) : ip ∈ (dispatchBatch visited q).1 := by
  induction q generalizing visited with
  | nil => exact h
  | cons p rest ih =>
    obtain ⟨i, pt⟩ := p
    rw [dispatchBatch]
    by_cases hi : i ∈ visited
    · rw [if_pos hi]; exact ih visited h
    · rw [if_neg hi]; exact ih (i :: visited) (List.mem_cons_of_mem i h)

theorem dispatchBatch_batch_new (q : List (String × Nat)) (visited : List String) :
    ∀ p ∈ (dispatchBatch visited q).2, p.1 ∉ visited := by
  induction q generalizing visited with
  | nil => intro p hp; exact absurd hp (by simp [dispatchBatch])
  | cons x rest ih =>
    obtain ⟨i, pt⟩ := x
    intro p hp
    rw [dispatchBatch] at hp
    by_cases hi : i ∈ visited
    · rw [if_pos hi] at hp; exact ih visited p hp
    · rw [if_neg hi] at hp
      rcases List.mem_cons.mp hp with hp | hp
      · rw [hp]; exact hi
      · have := ih (i :: visited) p hp
        exact fun hv => this (List.mem_cons_of_mem i hv)

theorem dispatchBatch_batch_final (q : List (String × Nat)) (visited : List String) :
    ∀ p ∈ (dispatchBatch visited q).2, p.1 ∈ (dispatchBatch visited q).1 := by
  induction q generalizing visited with
  | nil => intro p hp; exact absurd hp (by simp [dispatchBatch])
  | cons x rest ih =>
    obtain ⟨i, pt⟩ := x
    intro p hp
    rw [dispatchBatch] at hp ⊢
    by_cases hi : i ∈ visited
    · rw [if_pos hi] at hp ⊢; exact ih visited p hp
    · rw [if_neg hi] at hp ⊢
      rcases List.mem_cons.mp hp with hp | hp
      · rw [hp]
        exact dispatchBatch_mem_visited rest (i :: visited) i (List.mem_cons_self i _)
      · exact ih (i :: visited) p hp

theorem crawlDispatches_count (qs : List (List (String × Nat))) (visited : List String)
    (a : String) :
    (crawlDispatches visited qs).countP (fun b => decide (a ∈ b.map Prod.fst)) ≤ 1
    ∧ (a ∈ visited →
        (crawlDispatches visited qs).countP (fun b => decide (a ∈ b.map Prod.fst)) = 0) := by
  induction qs generalizing visited with
  | nil => simp [crawlDispatches]
  | cons q qs ih =>
    rw [crawlDispatches]
    obtain ⟨ih1, ih2⟩ := ih (dispatchBatch visited q).1
    by_cases hb : a ∈ (dispatchBatch visited q).2.map Prod.fst
    · obtain ⟨p, hp, hpa⟩ := List.mem_map.mp hb
      have hrest : (crawlDispatches (dispatchBatch visited q).1 qs).countP
          (fun b => decide (a ∈ b.map Prod.fst)) = 0 := by
        apply ih2
        rw [← hpa]
        exact dispatchBatch_batch_final q visited p hp
      constructor
      · rw [List.countP_cons, hrest, if_pos (by simpa using hb)]
      · intro ha
        exact absurd ha (hpa ▸ dispatchBatch_batch_new q visited p hp)
    · constructor
      · rw [List.countP_cons, if_neg (by simpa using hb)]
        simpa using ih1
      · intro ha
        rw [List.countP_cons, if_neg (by simpa using hb)]
        simpa using ih2 (dispatchBatch_mem_visited q visited a ha)

/-- `new_peers` insertion of `BitcoinCrawler`-style sequential crawling
(`bitcoin_peer_crawler.py` lines 336–340): each returned peer is appended
to discovered and to the queue only if not already discovered, processed
one by one. -/
def enqueueNew (discovered queue : List (String × Nat)) :
    List (String × Nat) → List (String × Nat) × List (String × Nat)
  | [] => (discovered, queue)
  | p :: ps =>
    if p ∈ discovered then enqueueNew discovered queue ps
    else enqueueNew (discovered ++ [p]) (queue ++ [p]) ps

/-- The sequential crawl loop of `BitcoinPeerCrawler.crawl_from_seed`
(`bitcoin_peer_crawler.py` lines 321–343), returning the sequence of
peers actually dispatched (contacted), in order: pop the queue head, skip
it if already visited, otherwise add it to `visited` and contact it via
the network oracle `net` (`connect_to_peer`; a failed attempt is `net`
returning `[]`), enqueueing the unseen returned peers.  `fuel` bounds the
recursion depth of the model; every theorem below holds for every
fuel. -/
def crawlFromSeed (net : String × Nat → List (String × Nat)) (maxPeers : Nat) :
    Nat → List (String × Nat) → List (String × Nat) → List (String × Nat) →
      List (String × Nat)
  | 0, _, _, _ => []
  | fuel + 1, queue, visited, discovered =>
    match queue with
    | [] => []
    | cur :: rest =>
      if maxPeers ≤ visited.length then []
      else if cur ∈ visited then crawlFromSeed net maxPeers fuel rest visited discovered
      else
        let dq := enqueueNew discovered rest (net cur)
        cur :: crawlFromSeed net maxPeers fuel dq.2 (cur :: visited) dq.1

theorem crawlFromSeed_nodup (net : String × Nat → List (String × Nat))
    (maxPeers fuel : Nat) (queue visited discovered : List (String × Nat)) :
    (∀ p ∈ crawlFromSeed net maxPeers fuel queue visited discovered, p ∉ visited)
    ∧ (crawlFromSeed net maxPeers fuel queue visited discovered).Nodup := by
  induction fuel generalizing queue visited discovered with
  | zero => simp [crawlFromSeed]
  | succ k ih =>
    match queue with
    | [] => simp [crawlFromSeed]
    | cur :: rest =>
      rw [crawlFromSeed]
      by_cases hmax : maxPeers ≤ visited.length
      · rw [if_pos hmax]; simp
      · rw [if_neg hmax]
        by_cases hv : cur ∈ visited
        · rw [if_pos hv]; exact ih rest visited discovered
        · rw [if_neg hv]
          obtain ⟨ih1, ih2⟩ := ih (enqueueNew discovered rest (net cur)).2
            (cur :: visited) (enqueueNew discovered rest (net cur)).1
          constructor
          · intro p hp
            rcases List.mem_cons.mp hp with hp | hp
            · rw [hp]; exact hv
            · exact fun hpv => ih1 p hp (List.mem_cons_of_mem cur hpv)
          · refine List.nodup_cons.mpr ⟨fun hc => ?_, ih2⟩
            exact ih1 cur hc (List.mem_cons_self cur visited)

/-- **C1.** Frontier dedup.  For `BitcoinTestnetCrawler.crawl`: over any
run (any initial visited set and any sequence of per-iteration database
queues), any given ip occurs in at most one dispatched batch, and in none
at all if it was already visited — each dispatched ip enters `visited`
before its task is created, so the queue entries actually dispatched are
always disjoint from the prior visited set.  For
`BitcoinPeerCrawler.crawl_from_seed`: the sequence of contacted peers
never repeats an address and never touches an already-visited one. -/
theorem frontier_dedup (visited : List String) (qs : List (List (String × Nat)))
    (a : String) (net : String × Nat → List (String × Nat)) (maxPeers fuel : Nat)
    (queue visitedSeq discovered : List (String × Nat)) :
    (crawlDispatches visited qs).countP (fun b => decide (a ∈ b.map Prod.fst)) ≤ 1
    ∧ (a ∈ visited →
        (crawlDispatches visited qs).countP (fun b => decide (a ∈ b.map Prod.fst)) = 0)
    ∧ (crawlFromSeed net maxPeers fuel queue visitedSeq discovered).Nodup
    ∧ (∀ p ∈ crawlFromSeed net maxPeers fuel queue visitedSeq discovered,
        p ∉ visitedSeq) := by
  obtain ⟨h1, h2⟩ := crawlDispatches_count qs visited a
  obtain ⟨h3, h4⟩ := crawlFromSeed_nodup net maxPeers fuel queue visitedSeq discovered
  exact ⟨h1, h2, h4, h3⟩

/-- Witness for `frontier_dedup`: a two-iteration run in which `"b"` is
offered by the database in both iterations but dispatched only once, the
pre-visited `"a"` is never dispatched, and a concrete sequential crawl
contacts each peer once. -/
theorem frontier_dedup_witness :
    (crawlDispatches ["a"] [[("a", 1), ("b", 2)], [("b", 3), ("c", 4)]]).countP
        (fun b => decide ("b" ∈ b.map Prod.fst)) ≤ 1
    ∧ (crawlDispatches ["a"] [[("a", 1), ("b", 2)], [("b", 3), ("c", 4)]]).countP
        (fun b => decide ("a" ∈ b.map Prod.fst)) = 0
    ∧ (crawlFromSeed (fun _ => [("x", 9)]) 10 5 [("s", 1)] [] []).Nodup := by
  have h1 := frontier_dedup ["a"] [[("a", 1), ("b", 2)], [("b", 3), ("c", 4)]] "b"
    (fun _ => [("x", 9)]) 10 5 [("s", 1)] [] []
  have h2 := frontier_dedup ["a"] [[("a", 1), ("b", 2)], [("b", 3), ("c", 4)]] "a"
    (fun _ => [("x", 9)]) 10 5 [("s", 1)] [] []
  exact ⟨h1.1, h2.2.1 (by decide), h1.2.2.1⟩

/-- What one iteration of `BitcoinTestnetCrawler.crawl` observes from the
database before deciding whether to continue: `get_peer_counts()['total']`
and the `get_uncontacted_peers` batch. -/
structure IterObservation where
  total : Nat
  queue : List (String × Nat)

/-- The two `break` conditions checked at the top of iteration `k` of the
crawl loop (`custom_crawler/crawler.py` lines 594–603): target reached,
or no uncontacted peers left. -/
def stopCond (target : Nat) (env : Nat → IterObservation) (k : Nat) : Bool :=
  decide (target ≤ (env k).total) || decide ((env k).queue = [])

/-- The iteration structure of `BitcoinTestnetCrawler.crawl`
(`custom_crawler/crawler.py` lines 583–604): `for iteration in
range(max_iterations)` with the two early `break`s, counting the batches
actually processed from iteration index `k` on with `fuel` iterations
remaining.  The function is total — every worker failure inside a batch
is captured (`gather` with `return_exceptions=True`, and
`handshake_and_get_peers` catches every exception), so no iteration can
abort the loop. -/
def crawlIterations (target : Nat) (env : Nat → IterObservation) : Nat → Nat → Nat
  | 0, _ => 0
  | fuel + 1, k =>
    if target ≤ (env k).total then 0
    else if (env k).queue = [] then 0
    else crawlIterations target env fuel (k + 1) + 1

theorem crawlIterations_spec (target : Nat) (env : Nat → IterObservation)
    (fuel k : Nat) :
    crawlIterations target env fuel k ≤ fuel
    ∧ (∀ j, j < crawlIterations target env fuel k → stopCond target env (k + j) = false)
    ∧ (crawlIterations target env fuel k < fuel →
        stopCond target env (k + crawlIterations target env fuel k) = true) := by
  induction fuel generalizing k with
  | zero =>
    have h0 : crawlIterations target env 0 k = 0 := rfl
    rw [h0]
    exact ⟨Nat.le_refl 0, fun j hj => absurd hj (by omega), fun hc => absurd hc (by omega)⟩
  | succ m ih =>
    rw [crawlIterations]
    by_cases h1 : target ≤ (env k).total
    · rw [if_pos h1]
      refine ⟨by omega, fun j hj => absurd hj (by omega), fun _ => ?_⟩
      simp [stopCond, h1]
    · rw [if_neg h1]
      by_cases h2 : (env k).queue = []
      · rw [if_pos h2]
        refine ⟨by omega, fun j hj => absurd hj (by omega), fun _ => ?_⟩
        simp [stopCond, h2]
      · rw [if_neg h2]
        obtain ⟨ih1, ih2, ih3⟩ := ih (k + 1)
        refine ⟨by omega, ?_, ?_⟩
        · intro j hj
          cases j with
          | zero => simp [stopCond, h1, h2]
          | succ i =>
            have he : k + (i + 1) = (k + 1) + i := by omega
            rw [he]
            exact ih2 i (by omega)
        · intro hlt
          have he : k + (crawlIterations target env m (k + 1) + 1)
              = (k + 1) + crawlIterations target env m (k + 1) := by omega
          rw [he]
          exact ih3 (by omega)

/-- **C7.** Crawl termination: for every target, every finite
`maxIterations` and every sequence of database observations, the crawl
loop performs at most `maxIterations` batches; no processed batch starts
with a stop condition already holding (it halts as soon as the frontier
is empty or the discovered total reaches the target), and if fewer than
`maxIterations` batches ran, the loop stopped precisely because a stop
condition held at the next iteration.  The loop is a total function — no
unhandled failure can end it. -/
theorem crawl_termination (target maxIter : Nat) (env : Nat → IterObservation) :
    crawlIterations target env maxIter 0 ≤ maxIter
    ∧ (∀ j, j < crawlIterations target env maxIter 0 → stopCond target env j = false)
    ∧ (crawlIterations target env maxIter 0 < maxIter →
        stopCond target env (crawlIterations target env maxIter 0) = true) := by
  obtain ⟨h1, h2, h3⟩ := crawlIterations_spec target env maxIter 0
  refine ⟨h1, fun j hj => ?_, fun hlt => ?_⟩
  · have := h2 j hj
    rwa [Nat.zero_add] at this
  · have := h3 hlt
    rwa [Nat.zero_add] at this

/-- Witness for `crawl_termination`: the discovered total grows by one
per iteration, the queue never empties, the target is 2 — the loop runs
exactly 2 of its 5 allowed batches and stops on the target check. -/
theorem crawl_termination_witness :
    crawlIterations 2 (fun k => ⟨k, [("seed", 18333)]⟩) 5 0 ≤ 5
    ∧ stopCond 2 (fun k => ⟨k, [("seed", 18333)]⟩) 1 = false
    ∧ stopCond 2 (fun k => ⟨k, [("seed", 18333)]⟩)
        (crawlIterations 2 (fun k => ⟨k, [("seed", 18333)]⟩) 5 0) = true := by
  have h := crawl_termination 2 5 (fun k => ⟨k, [("seed", 18333)]⟩)
  exact ⟨h.1, h.2.1 1 (by decide), h.2.2 (by decide)⟩

/-- `BitcoinNodesDB.get_uncontacted_peers` (`custom_crawler/database.py`
lines 270–291): `srandmember(uncontacted, limit)` returns at most `limit`
distinct members of the uncontacted set — modelled as the first `limit`
entries — and the subsequent port lookup keeps at most those. -/
def get_uncontacted_peers (uncontacted : List (String × Nat)) (limit : Nat) :
    List (String × Nat) :=
  uncontacted.take limit

theorem dispatchBatch_length_le (q : List (String × Nat)) (visited : List String) :
    (dispatchBatch visited q).2.length ≤ q.length := by
  induction q generalizing visited with
  | nil => simp [dispatchBatch]
  | cons x rest ih =>
    obtain ⟨i, pt⟩ := x
    rw [dispatchBatch]
    by_cases hi : i ∈ visited
    · rw [if_pos hi]
      exact Nat.le_succ_of_le (ih visited)
    · rw [if_neg hi]
      simpa using ih (i :: visited)

/-- **C9.** Concurrency bound: the batch drawn from the database holds at
most `concurrency` addresses, and the dispatched task list of an
iteration — one worker session (socket) per entry, all of which are
awaited before the next batch starts — is never longer than
`concurrency`.  Hence no point of the run has more than `concurrency`
worker sessions open. -/
theorem concurrency_bound (uncontacted : List (String × Nat)) (visited : List String)
    (concurrency : Nat) :
    (get_uncontacted_peers uncontacted concurrency).length ≤ concurrency
    ∧ (dispatchBatch visited (get_uncontacted_peers uncontacted concurrency)).2.length
        ≤ concurrency := by
  refine ⟨List.length_take_le concurrency uncontacted, ?_⟩
  exact Nat.le_trans
    (dispatchBatch_length_le (get_uncontacted_peers uncontacted concurrency) visited)
    (List.length_take_le concurrency uncontacted)

/-- One worker outcome as seen by the result loop: `asyncio.gather` with
`return_exceptions=True` delivers either a `ConnectionResult` or an
exception object. -/
inductive WorkerOutcome
  | ok : ConnectionResult → WorkerOutcome
  | raised : WorkerOutcome

/-- The counter fields of `CrawlStats` (`custom_crawler/crawler.py` lines
79–100; the timing and session fields play no part in the counters). -/
structure CrawlStats where
  total_discovered : Nat
  total_contacted : Nat
  successful_handshakes : Nat
  failed_connections : Nat
  deriving DecidableEq, Repr

/-- One step of the result-processing loop of `BitcoinTestnetCrawler.crawl`
(`custom_crawler/crawler.py` lines 629–657): a successful
`ConnectionResult` bumps `successful_handshakes`, a failed one or an
exception object bumps `failed_connections`, and `total_contacted` is
always bumped once.  (`total_discovered` is updated separately, after the
loop.) -/
def processResult (s : CrawlStats) (r : WorkerOutcome) : CrawlStats :=
  match r with
  | .ok cr =>
    if cr.success then
      { s with successful_handshakes := s.successful_handshakes + 1,
               total_contacted := s.total_contacted + 1 }
    else
      { s with failed_connections := s.failed_connections + 1,
               total_contacted := s.total_contacted + 1 }
  | .raised =>
      { s with failed_connections := s.failed_connections + 1,
               total_contacted := s.total_contacted + 1 }

/-- The result loop of one batch (`custom_crawler/crawler.py` lines
623–657): iterate over the gathered results, stopping at the
dispatched-peer count (the `i >= len(peers_to_process)` break). -/
def processResults (s : CrawlStats) (peersCount : Nat)
    (results : List WorkerOutcome) : CrawlStats :=
  (results.take peersCount).foldl processResult s

theorem processResult_step (s : CrawlStats) (r : WorkerOutcome) :
    (processResult s r).total_contacted = s.total_contacted + 1
    ∧ (processResult s r).successful_handshakes + (processResult s r).failed_connections
        = s.successful_handshakes + s.failed_connections + 1 := by
  cases r with
  | ok cr =>
    by_cases hs : cr.success = true
    · simp [processResult, hs]
      omega
    · have hs0 : cr.success = false := by revert hs; cases cr.success <;> simp
      simp [processResult, hs0]
      omega
  | raised =>
    simp [processResult]
    omega

theorem processResults_inv (results : List WorkerOutcome) (s : CrawlStats)
    (h : s.total_contacted = s.successful_handshakes + s.failed_connections) :
    (results.foldl processResult s).total_contacted
      = (results.foldl processResult s).successful_handshakes
        + (results.foldl processResult s).failed_connections := by
  induction results generalizing s with
  | nil => exact h
  | cons r rest ih =>
    rw [List.foldl_cons]
    apply ih
    obtain ⟨h1, h2⟩ := processResult_step s r
    omega

/-- **C10.** Counter consistency: every processed worker result bumps
`total_contacted` exactly once and exactly one of
`successful_handshakes`/`failed_connections` (exceptions included), so
from any state satisfying `total_contacted = successful_handshakes +
failed_connections` — as the zero-initialised `CrawlStats()` does — the
equality still holds after processing any batch of results.  Applied
after each batch in turn, the invariant holds after every batch of the
crawl loop. -/
theorem counter_consistency (s : CrawlStats) (peersCount : Nat)
    (results : List WorkerOutcome)
    (h : s.total_contacted = s.successful_handshakes + s.failed_connections) :
    (processResults s peersCount results).total_contacted
      = (processResults s peersCount results).successful_handshakes
        + (processResults s peersCount results).failed_connections
    ∧ ∀ r, (processResult s r).total_contacted = s.total_contacted + 1
        ∧ (processResult s r).successful_handshakes
            + (processResult s r).failed_connections
          = s.successful_handshakes + s.failed_connections + 1 := by
  exact ⟨processResults_inv (results.take peersCount) s h,
    fun r => processResult_step s r⟩

/-- Witness for `counter_consistency`: a batch of one success, one
failure and one exception, from fresh zero counters. -/
theorem counter_consistency_witness :
    (processResults ⟨0, 0, 0, 0⟩ 3
        [WorkerOutcome.ok ⟨true, [], none⟩, WorkerOutcome.ok ⟨false, [], none⟩,
          WorkerOutcome.raised]).total_contacted
      = (processResults ⟨0, 0, 0, 0⟩ 3
          [WorkerOutcome.ok ⟨true, [], none⟩, WorkerOutcome.ok ⟨false, [], none⟩,
            WorkerOutcome.raised]).successful_handshakes
        + (processResults ⟨0, 0, 0, 0⟩ 3
            [WorkerOutcome.ok ⟨true, [], none⟩, WorkerOutcome.ok ⟨false, [], none⟩,
              WorkerOutcome.raised]).failed_connections :=
  (counter_consistency ⟨0, 0, 0, 0⟩ 3
    [WorkerOutcome.ok ⟨true, [], none⟩, WorkerOutcome.ok ⟨false, [], none⟩,
      WorkerOutcome.raised] rfl).1

end Crawler
